import Mathlib

/-!
# Verification of the Pr0xies URL-rewriting proxy core

Shallow embedding of the URL codecs, URL rewriters, cookie scope validator,
service-worker network edge and hook-dispatch layer of the repository
(`uv.bundle.js`, `uv.handler.js`, `sw.js`, `uv.client.js`, `uv.sw.js`),
together with proofs and refutations of the specified properties.

JavaScript strings are modelled as lists of Unicode code points
(`List Nat`).  JavaScript built-ins used by the sources
(`encodeURIComponent`, `decodeURIComponent`, `btoa`, `atob`,
`String.prototype.trim/startsWith/endsWith/includes`, the WHATWG `URL`
constructor) are modelled faithfully for the domain the repository
exercises; each model carries a comment stating its scope.  A JavaScript
function that can throw is modelled with `Except Unit` (an `Except.error`
is an exception propagating to the caller) or with `Option` where the
surrounding code only observes success/failure.
-/

namespace Pr0xies

/-- Code points of a string literal: the bridge from readable literals to the
`List Nat` character model. -/
def str (s : String) : List Nat := s.data.map Char.toNat

/-- JavaScript whitespace (the set removed by `String.prototype.trim`):
tab, LF, VT, FF, CR, space, NBSP, LS, PS, BOM (the code points that occur in
practice; all are outside the printable-ASCII range 33..126). -/
def isJsWs (c : Nat) : Bool :=
  c = 9 || c = 10 || c = 11 || c = 12 || c = 13 || c = 32 || c = 160 ||
  c = 8232 || c = 8233 || c = 65279

/-- Model of `String.prototype.trim`. -/
def jsTrim (s : List Nat) : List Nat :=
  ((s.dropWhile isJsWs).reverse.dropWhile isJsWs).reverse

/-- Model of `String.prototype.startsWith`. -/
def jsStarts (s pat : List Nat) : Bool := pat.isPrefixOf s

/-- Model of `String.prototype.endsWith`. -/
def jsEnds (s pat : List Nat) : Bool := pat.isSuffixOf s

/-- Model of `String.prototype.includes`. -/
def jsIncludes (s pat : List Nat) : Bool := decide (pat <:+: s)

/-- The characters `encodeURIComponent` leaves unescaped:
`A-Z a-z 0-9 - _ . ! ~ * quote ( )` (ECMA-262 `uriUnescaped`). -/
def uriUnescaped (c : Nat) : Bool :=
  (65 ≤ c && c ≤ 90) || (97 ≤ c && c ≤ 122) || (48 ≤ c && c ≤ 57) ||
  c = 45 || c = 95 || c = 46 || c = 33 || c = 126 || c = 42 || c = 39 ||
  c = 40 || c = 41

/-- Upper-case hex digit of a value below 16 (as emitted by
`encodeURIComponent`). -/
def hexDigitU (n : Nat) : Nat := if n < 10 then 48 + n else 55 + n

/-- Value of a hex digit character, either case (`0-9 A-F a-f`). -/
def hexVal (c : Nat) : Option Nat :=
  if 48 ≤ c && c ≤ 57 then some (c - 48)
  else if 65 ≤ c && c ≤ 70 then some (c - 55)
  else if 97 ≤ c && c ≤ 102 then some (c - 87)
  else none

/-- UTF-8 bytes of a single code point (1 to 4 bytes). -/
def utf8Char (c : Nat) : List Nat :=
  if c < 128 then [c]
  else if c < 2048 then [192 + c / 64, 128 + c % 64]
  else if c < 65536 then [224 + c / 4096, 128 + c / 64 % 64, 128 + c % 64]
  else [240 + c / 262144, 128 + c / 4096 % 64, 128 + c / 64 % 64, 128 + c % 64]

/-- UTF-8 bytes of a whole string (the `unescape(encodeURIComponent(s))`
composite used by `sw.js` / `uv.client.js` maps a string to exactly this
byte sequence). -/
def utf8Bytes (s : List Nat) : List Nat := s.flatMap utf8Char

/-- Escape of one byte as percent plus two upper-case hex digits. -/
def pctByte (b : Nat) : List Nat := [37, hexDigitU (b / 16), hexDigitU (b % 16)]

/-- Model of `encodeURIComponent`: unescaped characters pass through, every
other character is UTF-8 encoded and each byte `%XX`-escaped. -/
def encodeURIComponentJs (s : List Nat) : List Nat :=
  s.flatMap fun c => if uriUnescaped c then [c] else (utf8Char c).flatMap pctByte

/-- Percent-unescape to a byte sequence: each `%XX` becomes one byte, other
characters pass through; `none` on a malformed escape (the URIError case). -/
def pctUnescape : List Nat → Option (List Nat)
  | [] => some []
  | c :: rest =>
    if c = 37 then
      match rest with
      | h1 :: h2 :: rest2 =>
        match hexVal h1, hexVal h2 with
        | some a, some b => (pctUnescape rest2).map fun l => (16 * a + b) :: l
        | _, _ => none
      | _ => none
    else (pctUnescape rest).map fun l => c :: l

/-- One-byte-at-a-time UTF-8 decoder: the state holds the partial code
point and the number of continuation bytes still expected; `none` on a
truncated or malformed sequence (continuation-byte ranges checked, C0/C1
and above-F4 leads rejected). -/
def utf8DecodeSt : Option (Nat × Nat) → List Nat → Option (List Nat)
  | none, [] => some []
  | some _, [] => none
  | none, b :: rest =>
    if b < 128 then (utf8DecodeSt none rest).map fun l => b :: l
    else if b < 194 then none
    else if b < 224 then utf8DecodeSt (some (b - 192, 1)) rest
    else if b < 240 then utf8DecodeSt (some (b - 224, 2)) rest
    else if b < 245 then utf8DecodeSt (some (b - 240, 3)) rest
    else none
  | some (acc, n), b :: rest =>
    if 128 ≤ b && b < 192 then
      if n ≤ 1 then
        (utf8DecodeSt none rest).map fun l => (acc * 64 + (b - 128)) :: l
      else utf8DecodeSt (some (acc * 64 + (b - 128), n - 1)) rest
    else none

/-- UTF-8 decoding of a byte sequence to code points. -/
def utf8Decode (l : List Nat) : Option (List Nat) := utf8DecodeSt none l

/-- Model of `decodeURIComponent`: percent-unescape then UTF-8 decode;
`none` models the thrown `URIError`.  Faithful to ECMA-262 for inputs whose
literal (non-escaped) characters are ASCII, which covers every token this
repository produces or consumes. -/
def decodeURIComponentJs (s : List Nat) : Option (List Nat) :=
  (pctUnescape s).bind utf8Decode

/-! ## Base64 (`btoa` / `atob`) -/

/-- Character of the standard base64 alphabet for a sextet value. -/
def b64Char (n : Nat) : Nat :=
  if n < 26 then 65 + n
  else if n < 52 then 97 + (n - 26)
  else if n < 62 then 48 + (n - 52)
  else if n = 62 then 43
  else 47

/-- Value of a standard-alphabet base64 character (`+` and `/`, not the
URL-safe variants); `none` for anything else, including `=`. -/
def b64Val (c : Nat) : Option Nat :=
  if 65 ≤ c && c ≤ 90 then some (c - 65)
  else if 97 ≤ c && c ≤ 122 then some (c - 71)
  else if 48 ≤ c && c ≤ 57 then some (c + 4)
  else if c = 43 then some 62
  else if c = 47 then some 63
  else none

/-- Base64 encoding of a byte list, with `=` padding (the output of `btoa`
on a string of those code units). -/
def b64Encode : List Nat → List Nat
  | [] => []
  | [a] => [b64Char (a / 4), b64Char (a % 4 * 16), 61, 61]
  | [a, b] => [b64Char (a / 4), b64Char (a % 4 * 16 + b / 16),
               b64Char (b % 16 * 4), 61]
  | a :: b :: c :: rest =>
    b64Char (a / 4) :: b64Char (a % 4 * 16 + b / 16) ::
    b64Char (b % 16 * 4 + c / 64) :: b64Char (c % 64) :: b64Encode rest

/-- Decode a padding-stripped base64 body 4 characters at a time; a final
group of 2 or 3 characters yields 1 or 2 bytes (leftover bits discarded, as
in WHATWG forgiving-base64); `none` on a character outside the alphabet or
a trailing group of 1. -/
def b64DecodeBody : List Nat → Option (List Nat)
  | [] => some []
  | [c1, c2] =>
    match b64Val c1, b64Val c2 with
    | some v1, some v2 => some [v1 * 4 + v2 / 16]
    | _, _ => none
  | [c1, c2, c3] =>
    match b64Val c1, b64Val c2, b64Val c3 with
    | some v1, some v2, some v3 =>
      some [v1 * 4 + v2 / 16, v2 % 16 * 16 + v3 / 4]
    | _, _, _ => none
  | c1 :: c2 :: c3 :: c4 :: rest =>
    match b64Val c1, b64Val c2, b64Val c3, b64Val c4 with
    | some v1, some v2, some v3, some v4 =>
      (b64DecodeBody rest).map fun l =>
        (v1 * 4 + v2 / 16) :: (v2 % 16 * 16 + v3 / 4) :: (v3 % 4 * 64 + v4) :: l
    | _, _, _, _ => none
  | _ => none

/-- Strip one or two trailing `=` characters. -/
def b64StripPad (t : List Nat) : List Nat :=
  match t.reverse with
  | c1 :: c2 :: r =>
    if c1 = 61 then (if c2 = 61 then r.reverse else (c2 :: r).reverse) else t
  | c1 :: r => if c1 = 61 then r.reverse else t
  | [] => t

/-- Model of `atob` (WHATWG forgiving-base64 decode, on inputs without
ASCII whitespace, which is every token in this repository): strip up to two
trailing `=` when the length is a multiple of 4, reject a leftover length of
1 mod 4, then decode; `none` models the thrown `InvalidCharacterError`. -/
def atobJs (t : List Nat) : Option (List Nat) :=
  let d := if t.length % 4 = 0 then b64StripPad t else t
  if d.length % 4 = 1 then none else b64DecodeBody d

/-- Model of `btoa`: fails (throws) on a code unit above 255, otherwise
standard base64 of the code units. -/
def btoaJs (s : List Nat) : Option (List Nat) :=
  if s.all fun c => c < 256 then some (b64Encode s) else none

/-! ## The codec table of `uv.bundle.js` (lines 12-54)

Each `encode`/`decode` returns `Except Unit (List Nat)`: `Except.error ()`
models an exception (URIError / InvalidCharacterError) escaping the codec,
which has no try/catch of its own. -/

/-- Lift an `Option`-modelled throwing built-in into the exception monad. -/
def orThrow : Option (List Nat) → Except Unit (List Nat)
  | some v => Except.ok v
  | none => Except.error ()

/-- The XOR pass of the `xor` codec: every character at an odd index has its
code point XORed with 2 (tracked here by a parity flag that starts at
`false` for index 0). -/
def xorPassAux (odd : Bool) : List Nat → List Nat
  | [] => []
  | c :: rest => (if odd then c ^^^ 2 else c) :: xorPassAux (!odd) rest

/-- The xor codec's character transform (self-inverse). -/
def xorPass (s : List Nat) : List Nat := xorPassAux false s

/-- A codec strategy: both directions may throw. -/
structure Codec where
  enc : List Nat → Except Unit (List Nat)
  dec : List Nat → Except Unit (List Nat)

/-- Model of `codecs.none`: identity in both directions. -/
def codecNone : Codec := ⟨fun s => Except.ok s, fun s => Except.ok s⟩

/-- Model of `codecs.plain`: `encodeURIComponent` / `decodeURIComponent`, with the
falsy (empty-string) guard of the source. -/
def codecPlain : Codec :=
  ⟨fun s => if s = [] then Except.ok s else Except.ok (encodeURIComponentJs s),
   fun s => if s = [] then Except.ok s else orThrow (decodeURIComponentJs s)⟩

/-- Model of `codecs.xor`: XOR pass then `encodeURIComponent`; decode is
`decodeURIComponent` then the XOR pass. -/
def codecXor : Codec :=
  ⟨fun s => if s = [] then Except.ok s
            else Except.ok (encodeURIComponentJs (xorPass s)),
   fun s => if s = [] then Except.ok s
            else (orThrow (decodeURIComponentJs s)).map xorPass⟩

/-- Model of `codecs.base64`: `btoa(encodeURIComponent(str))` /
`decodeURIComponent(atob(str))`. -/
def codecBase64 : Codec :=
  ⟨fun s => if s = [] then Except.ok s
            else orThrow (btoaJs (encodeURIComponentJs s)),
   fun s => if s = [] then Except.ok s
            else (orThrow (atobJs s)).bind fun bytes =>
              orThrow (decodeURIComponentJs bytes)⟩

/-- The four supported strategies, as enumerated by the `codecs` object. -/
def supportedCodecs : List Codec := [codecNone, codecPlain, codecXor, codecBase64]

/-! ## The URL-safe base64 pair of `sw.js` (lines 15-43) and
`uv.client.js` (lines 25-36) -/

/-- Replace every occurrence of one character. -/
def replChar (a b : Nat) (s : List Nat) : List Nat :=
  s.map fun c => if c = a then b else c

/-- Model of `encodeUrl` of `sw.js`: `btoa(unescape(encodeURIComponent(url)))` (the
composite is exactly base64 of the UTF-8 bytes), then `+` to `-`, `/` to
`_`, and all `=` removed; the surrounding try/catch returns null on error,
modelled as `none`. -/
def swEncodeUrl (url : List Nat) : Option (List Nat) :=
  (btoaJs (utf8Bytes url)).map fun t =>
    (replChar 47 95 (replChar 43 45 t)).filter fun c => c ≠ 61

/-- Pad a token with `=` to a multiple of 4 (the `while` loop of
`decodeUrl`). -/
def rePad (t : List Nat) : List Nat :=
  t ++ List.replicate ((4 - t.length % 4) % 4) 61

/-- Model of `decodeUrl` of `sw.js`: map `-` back to `+` and `_` back to `/`, re-pad
to a multiple of 4, then `decodeURIComponent(escape(atob(padded)))` (the
composite is UTF-8 decoding of the `atob` bytes); the try/catch returns
null on any failure, modelled as `none`. -/
def swDecodeUrl (encoded : List Nat) : Option (List Nat) :=
  (atobJs (rePad (replChar 95 47 (replChar 45 43 encoded)))).bind utf8Decode

deriving instance DecidableEq for Except

/-! ## WHATWG `URL` (the subset the sources exercise)

Model of `new URL(url, base)` for lowercase `http(s)`-style URLs with an
explicit authority, plus opaque-path URLs for other schemes (`tel:`,
`mailto:`, ...).  Not modelled (and not exercised by any claim): userinfo,
IDN/percent normalisation of hosts, dot-segment removal. -/

def isAsciiAlpha (c : Nat) : Bool := (65 ≤ c && c ≤ 90) || (97 ≤ c && c ≤ 122)

def isAsciiDigit (c : Nat) : Bool := 48 ≤ c && c ≤ 57

def isSchemeChar (c : Nat) : Bool :=
  isAsciiAlpha c || isAsciiDigit c || c = 43 || c = 45 || c = 46

/-- Split a leading `scheme:` off a string: `some (scheme, rest)` with the
colon consumed. -/
def splitScheme (s : List Nat) : Option (List Nat × List Nat) :=
  match s with
  | [] => none
  | c :: rest => if isAsciiAlpha c then go [c] rest else none
where
  go (acc : List Nat) : List Nat → Option (List Nat × List Nat)
    | [] => none
    | c :: rest =>
      if c = 58 then some (acc.reverse, rest)
      else if isSchemeChar c then go (c :: acc) rest
      else none

/-- Schemes with a `//authority` component among those the sources meet. -/
def isSpecialScheme (sch : List Nat) : Bool :=
  sch = str "http" || sch = str "https" || sch = str "ws" ||
  sch = str "wss" || sch = str "ftp"

/-- A parsed URL.  For a non-special scheme (`nonSpecial = true`) the whole
remainder after the colon is kept in `pathname` and `host` is empty. -/
structure JsURL where
  scheme : List Nat
  host : List Nat
  pathname : List Nat
  search : List Nat
  hash : List Nat
  nonSpecial : Bool
deriving DecidableEq

/-- The `url.protocol` property (scheme with trailing colon). -/
def JsURL.protocol (u : JsURL) : List Nat := u.scheme ++ [58]

/-- The `url.hostname` property (host without the port). -/
def JsURL.hostname (u : JsURL) : List Nat := u.host.takeWhile fun c => c ≠ 58

/-- The `url.origin` property for special schemes. -/
def JsURL.origin (u : JsURL) : List Nat := u.scheme ++ str "://" ++ u.host

/-- The `url.href` property. -/
def JsURL.href (u : JsURL) : List Nat :=
  if u.nonSpecial then u.scheme ++ [58] ++ u.pathname
  else u.scheme ++ str "://" ++ u.host ++ u.pathname ++ u.search ++ u.hash

/-- Path component of a `path?query#fragment` tail. -/
def pqhPath (t : List Nat) : List Nat :=
  (t.takeWhile fun c => c ≠ 35).takeWhile fun c => c ≠ 63

/-- Query component (with its `?`) of a `path?query#fragment` tail. -/
def pqhQuery (t : List Nat) : List Nat :=
  (t.takeWhile fun c => c ≠ 35).dropWhile fun c => c ≠ 63

/-- Fragment component (with its `#`) of a `path?query#fragment` tail. -/
def pqhHash (t : List Nat) : List Nat := t.dropWhile fun c => c ≠ 35

/-- A character that may appear in the host position. -/
def hostChar (c : Nat) : Bool := c ≠ 47 && c ≠ 63 && c ≠ 35

/-- The host part of what follows `scheme://`. -/
def hostOf (r : List Nat) : List Nat := (r.drop 2).takeWhile hostChar

/-- What follows the host. -/
def tailOf (r : List Nat) : List Nat := (r.drop 2).dropWhile hostChar

/-- Parse an absolute URL (one that carries its own scheme). -/
def parseAbsolute (s : List Nat) : Option JsURL :=
  (splitScheme s).bind fun sr =>
    if isSpecialScheme sr.1 then
      if jsStarts sr.2 (str "//") then
        if hostOf sr.2 = [] then none
        else
          some ⟨sr.1, hostOf sr.2,
            if pqhPath (tailOf sr.2) = [] then [47] else pqhPath (tailOf sr.2),
            pqhQuery (tailOf sr.2), pqhHash (tailOf sr.2), false⟩
      else none
    else some ⟨sr.1, [], sr.2, [], [], true⟩

/-- The base directory (up to and including the last `/`) of a path. -/
def dirOf (p : List Nat) : List Nat :=
  (p.reverse.dropWhile fun c => c ≠ 47).reverse

/-- Model of `new URL(url, base)`: absolute URLs parse on their own;
otherwise protocol-relative, root-relative, query-only, fragment-only and
path-relative references are resolved against the base.  `none` models the
thrown `TypeError`. -/
def jsNewURL (url base : List Nat) : Option JsURL :=
  match parseAbsolute url with
  | some u => some u
  | none =>
    (parseAbsolute base).bind fun b =>
      if b.nonSpecial then none
      else if jsStarts url (str "//") then
        parseAbsolute (b.scheme ++ [58] ++ url)
      else if jsStarts url [47] then
        some { b with pathname := pqhPath url, search := pqhQuery url,
                      hash := pqhHash url }
      else if jsStarts url [63] then
        some { b with search := pqhQuery url, hash := pqhHash url }
      else if jsStarts url [35] then
        some { b with hash := url }
      else if url = [] then
        some { b with hash := [] }
      else
        some { b with pathname := dirOf b.pathname ++ pqhPath url,
                      search := pqhQuery url, hash := pqhHash url }

/-- Model of `new URL(url, base).href`, the form the rewriters consume. -/
def resolveHref (url base : List Nat) : Option (List Nat) :=
  (jsNewURL url base).map JsURL.href

/-! ## The rewriters -/

/-- The configured proxy path segment (`/service/`, from `uv.config.js` and
the `PROXY_PREFIX` of `sw.js`). -/
def svcPre : List Nat := str "/service/"

/-- The deployed encoder: `uv.config.js` selects the `xor` codec, whose
encode never throws, so it is usable as a total function. -/
def xorEncode (s : List Nat) : List Nat :=
  if s = [] then [] else encodeURIComponentJs (xorPass s)

/-- Model of `Ultraviolet.rewriteJS` (bundle, lines 213-217): returns the code
unchanged. -/
def bundleRewriteJS (code : List Nat) : List Nat := code

/-- The `urlRegex` of the bundle (line 108):
`^(#|about:|data:|mailto:|blob:|javascript:)` — note: no `tel:`. -/
def uvUrlRegexTest (u : List Nat) : Bool :=
  jsStarts u (str "#") || jsStarts u (str "about:") || jsStarts u (str "data:") ||
  jsStarts u (str "mailto:") || jsStarts u (str "blob:") ||
  jsStarts u (str "javascript:")

/-- The `meta` record of an `Ultraviolet` instance; an empty list models a
null/absent field (falsy in the `||` fallbacks). -/
structure UvMeta where
  base : List Nat
  url : List Nat
  origin : List Nat
deriving DecidableEq

/-- The host page `location` the bundle falls back to. -/
structure JsLocation where
  href : List Nat
  protocol : List Nat
  origin : List Nat
deriving DecidableEq

/-- Model of `const base = meta.base || meta.url || location.href` of the bundle's
`rewriteUrl`. -/
def bundleBase (meta : UvMeta) (loc : JsLocation) : List Nat :=
  if meta.base ≠ [] then meta.base
  else if meta.url ≠ [] then meta.url else loc.href

/-- Model of `const origin = meta.origin || location.origin`. -/
def bundleOrigin (meta : UvMeta) (loc : JsLocation) : List Nat :=
  if meta.origin ≠ [] then meta.origin else loc.origin

/-- Model of `Ultraviolet.rewriteUrl` (bundle, lines 156-184), with the configured
encoder abstracted as `ec`.  The `javascript:` branch after the regex test
is kept even though the regex already catches `javascript:`. -/
def bundleRewriteUrl (ec : List Nat → List Nat) (meta : UvMeta)
    (loc : JsLocation) (url0 : List Nat) : List Nat :=
  if url0 = [] then url0
  else if uvUrlRegexTest (jsTrim url0) then jsTrim url0
  else if jsStarts (jsTrim url0) (str "javascript:") then
    str "javascript:" ++ bundleRewriteJS ((jsTrim url0).drop 11)
  else
    match if jsStarts (jsTrim url0) (str "//") then
            some (loc.protocol ++ jsTrim url0)
          else resolveHref (jsTrim url0) (bundleBase meta loc) with
    | some resolved => bundleOrigin meta loc ++ svcPre ++ ec resolved
    | none => bundleOrigin meta loc ++ svcPre ++ ec (jsTrim url0)

/-- The skip-list test of the handler's `rewriteUrl` (uv.handler.js,
lines 54-59): seven schemes, including `tel:`. -/
def hSkipScheme (u : List Nat) : Bool :=
  jsStarts u (str "data:") || jsStarts u (str "blob:") ||
  jsStarts u (str "javascript:") || jsStarts u (str "about:") ||
  jsStarts u (str "mailto:") || jsStarts u (str "tel:") || jsStarts u (str "#")

/-- The handler's `rewriteUrl` (uv.handler.js, lines 47-75): trim, skip
schemes, treat any string containing the prefix as already rewritten,
resolve against `base || uv.source`, encode with the configured (xor)
codec; any exception returns the (trimmed) input. -/
def hRewriteUrl (src url0 base : List Nat) : List Nat :=
  if url0 = [] then url0
  else if hSkipScheme (jsTrim url0) then jsTrim url0
  else if jsIncludes (jsTrim url0) svcPre then jsTrim url0
  else
    match resolveHref (jsTrim url0) (if base = [] then src else base) with
    | some abs => svcPre ++ xorEncode abs
    | none => jsTrim url0

/-! ## The network edge of `sw.js` -/

/-- Model of `shouldProxy` (sw.js, lines 48-63). -/
def shouldProxySw (url : List Nat) : Bool :=
  url ≠ [] &&
  !(jsStarts url (str "data:") || jsStarts url (str "blob:") ||
    jsStarts url (str "javascript:") || jsStarts url (str "about:") ||
    jsStarts url (str "chrome:") || jsStarts url (str "chrome-extension:") ||
    jsStarts url (str "moz-extension:") || jsStarts url (str "safari-extension:"))

/-- Model of `createProxyUrl` (sw.js, lines 87-113): absolutise (protocol-relative,
root-relative, relative, or already absolute), URL-safe-base64 encode, and
put under the prefix; any exception returns the input unchanged.  A null
from `encodeUrl` would be string-concatenated as the text `null`. -/
def createProxyUrl (originalUrl baseUrl : List Nat) : List Nat :=
  if originalUrl = [] || !shouldProxySw originalUrl then originalUrl
  else
    let absolute? : Option (List Nat) :=
      if jsStarts originalUrl (str "//") then
        (parseAbsolute baseUrl).map fun b => b.protocol ++ originalUrl
      else if jsStarts originalUrl [47] then
        (parseAbsolute baseUrl).map fun b => b.origin ++ originalUrl
      else if !jsStarts originalUrl (str "http://") &&
              !jsStarts originalUrl (str "https://") then
        resolveHref originalUrl baseUrl
      else some originalUrl
    match absolute? with
    | none => originalUrl
    | some absolute =>
      match swEncodeUrl absolute with
      | some e => svcPre ++ e
      | none => svcPre ++ str "null"

/-- What `handleProxyRequest` sees of the upstream response: its type
(opaque redirect or not), status, and `Location` header if accessible. -/
structure SwResponse where
  typeOpaqueRedirect : Bool
  status : Nat
  location : Option (List Nat)
deriving DecidableEq

/-- Outcome of the redirect branch. -/
inductive RedirectOut where
  | redirect (location : List Nat) (status : Nat)
  | passThrough
deriving DecidableEq

/-- The redirect handling of `handleProxyRequest` (sw.js, lines 216-226):
on a redirect status (or opaque redirect), read the `Location` header and
test it for truthiness (`if (location)`) — an absent header (null) and a
present-but-empty one (the empty string) both skip the branch — then
resolve it against the target and answer
`Response.redirect(createProxyUrl(...), status || 302)`; a `new URL`
failure escapes to the outer catch (502), modelled as `Except.error`. -/
def swHandleRedirect (resp : SwResponse) (targetUrl : List Nat) :
    Except Unit RedirectOut :=
  if resp.typeOpaqueRedirect ||
      (resp.status = 301 || resp.status = 302 || resp.status = 303 ||
       resp.status = 307 || resp.status = 308) then
    match resp.location with
    | some loc =>
      if loc = [] then Except.ok .passThrough
      else
        match resolveHref loc targetUrl with
        | none => Except.error ()
        | some newUrl =>
          Except.ok (.redirect (createProxyUrl newUrl targetUrl)
            (if resp.status = 0 then 302 else resp.status))
    | none => Except.ok .passThrough
  else Except.ok .passThrough

/-- Request headers, as a name/value list with lowercase names (the
normalisation the `Headers` class applies). -/
def headerGet (hs : List (List Nat × List Nat)) (name : List Nat) :
    Option (List Nat) :=
  (hs.find? fun kv => kv.1 == name).map Prod.snd

/-- The forwarded-header allow-list of `handleProxyRequest`
(sw.js, lines 182-189). -/
def fwdHeaderNames : List (List Nat) :=
  [str "accept", str "accept-language", str "content-type", str "range",
   str "if-none-match", str "if-modified-since"]

/-- The filtered `headers` object built by `handleProxyRequest`
(sw.js, lines 179-202): the allow-listed client headers plus synthesized
`Host`/`Origin`/`Referer` for the target. -/
def swFilteredHeaders (reqHeaders : List (List Nat × List Nat))
    (target : JsURL) (targetUrl : List Nat) : List (List Nat × List Nat) :=
  (fwdHeaderNames.filterMap fun n => (headerGet reqHeaders n).map fun v => (n, v))
  ++ [(str "host", target.host), (str "origin", target.origin),
      (str "referer", targetUrl)]

/-- The headers actually attached to the outgoing `Request`
(sw.js, line 207): `headers: request.headers` — the client's original
headers, verbatim; the filtered object above is never used. -/
def swForwardedHeaders (reqHeaders : List (List Nat × List Nat)) :
    List (List Nat × List Nat) := reqHeaders

/-! ## Cookie scope validation (`Ultraviolet.validateCookie`,
bundle lines 240-270) -/

/-- The cookie fields `validateCookie` reads; an empty `domain`/`path`
models an absent attribute (falsy under `cookie.domain || ` and the
`cookie.path &&` guard). -/
structure JsCookie where
  domain : List Nat
  path : List Nat
  secure : Bool
  httpOnly : Bool
deriving DecidableEq

/-- The domain-matching step of `validateCookie` (bundle lines 255-264):
a leading-dot domain passes when the hostname ends with the
suffix-stripped domain (a bare `endsWith`, no dot boundary) or equals it;
a dotless domain passes when the hostname equals it or ends with
`.` + domain. -/
def cookieDomainOk (c : JsCookie) (hostname : List Nat) : Bool :=
  if c.domain = [] then true
  else if jsStarts c.domain [46] then
    jsEnds hostname (c.domain.drop 1) || hostname = c.domain.drop 1
  else hostname = c.domain || jsEnds hostname (46 :: c.domain)

/-- Model of `Ultraviolet.validateCookie(cookie, meta, js)`: reject httpOnly in
script context; parse `meta.url` (unparsable means not visible); domain
match via `endsWith`; reject secure cookies on `http:`; require the
context path to start with the cookie path. -/
def validateCookie (c : JsCookie) (metaUrl : List Nat) (js : Bool) : Bool :=
  if c.httpOnly && js then false
  else
    match parseAbsolute metaUrl with
    | none => false
    | some u =>
      if !cookieDomainOk c u.hostname then false
      else if c.secure && u.protocol = str "http:" then false
      else if c.path ≠ [] && !jsStarts u.pathname c.path then false
      else true

/-! ## Hook dispatch (`uv.bundle.js` client half)

A listener receives the mutable `HookEvent` and either returns its updated
state or throws (`Except.error`). -/

/-- The `HookEvent` state for a single-URL-argument hook such as `fetch`. -/
structure HookEv where
  data : List Nat
  intercepted : Bool
  returnValue : Option (List Nat)
deriving DecidableEq

/-- Model of `EventEmitter.emit` of the UVClient half (lines 321-325): plain
`forEach(fn => fn.apply(this, args))` with no try/catch — a throwing
listener aborts dispatch and the exception propagates to the caller. -/
def emitClient (ls : List (HookEv → Except Unit HookEv)) (e : HookEv) :
    Except Unit HookEv :=
  ls.foldlM (fun ev l => l ev) e

/-- Model of `EventEmitter.emit` of the Ultraviolet half (lines 80-90): each
listener runs inside try/catch; an exception is logged and dispatch
continues with the event state from before the failing listener. -/
def emitUv (ls : List (HookEv → Except Unit HookEv)) (e : HookEv) : HookEv :=
  ls.foldl (fun ev l => match l ev with | .ok e2 => e2 | .error _ => ev) e

/-- Observable outcome of an intercepted `fetch` call. -/
inductive FetchOutcome where
  | originalNoArgs
  | originalWith (input : List Nat)
  | interceptedWith (v : Option (List Nat))
deriving DecidableEq

/-- Model of `FetchHook.override` (lines 450-465): no arguments passes straight
through; otherwise build the event, dispatch through the client emitter,
and either return the listener-supplied value or call the original with
the (possibly rewritten) input.  An exception from a listener escapes the
whole call. -/
def fetchOverride (ls : List (HookEv → Except Unit HookEv))
    (args : List (List Nat)) : Except Unit FetchOutcome :=
  match args with
  | [] => Except.ok .originalNoArgs
  | input :: _ =>
    (emitClient ls ⟨input, false, none⟩).map fun e =>
      if e.intercepted then .interceptedWith e.returnValue
      else .originalWith e.data

/-! ## Claim-side definitions -/

/-- URL-legal characters (RFC 3986): unreserved, reserved, and `%`.  All
are ASCII. -/
def urlLegalChar (c : Nat) : Bool :=
  isAsciiAlpha c || isAsciiDigit c || c = 45 || c = 46 || c = 95 ||
  c = 126 || c = 58 || c = 47 || c = 63 || c = 35 || c = 91 || c = 93 ||
  c = 64 || c = 33 || c = 36 || c = 38 || c = 39 || c = 40 || c = 41 ||
  c = 42 || c = 43 || c = 44 || c = 59 || c = 61 || c = 37

/-- Following the claim text for C3 (not the source): base64url of the
percent-encoded URL, with `+`/`/` replaced by `-`/`_` and `=` removed. -/
def claimBase64UrlOfPct (s : List Nat) : List Nat :=
  (replChar 47 95 (replChar 43 45 (b64Encode (encodeURIComponentJs s)))).filter
    fun c => c ≠ 61

/-- Views of `decodeUrl`/`encodeUrl` of `sw.js` as a caller observes them: the
internal try/catch makes the call total — it returns a value (possibly
null) and never lets the exception escape. -/
def swDecodeUrlCall (t : List Nat) : Except Unit (Option (List Nat)) :=
  Except.ok (swDecodeUrl t)

/-- See `swDecodeUrlCall`. -/
def swEncodeUrlCall (u : List Nat) : Except Unit (Option (List Nat)) :=
  Except.ok (swEncodeUrl u)

/-! ## Lemmas: percent encoding round-trips on ASCII -/

theorem hexVal_hexDigitU : ∀ n < 16, hexVal (hexDigitU n) = some n := by decide

theorem uriUnescaped_bounds {c : Nat} (h : uriUnescaped c = true) :
    33 ≤ c ∧ c ≤ 126 := by
  simp only [uriUnescaped, Bool.or_eq_true, Bool.and_eq_true,
    decide_eq_true_eq] at h
  omega

theorem uriUnescaped_ne37 {c : Nat} (h : uriUnescaped c = true) : c ≠ 37 := by
  intro he
  subst he
  exact absurd h (by decide)

theorem utf8Char_ascii {c : Nat} (h : c < 128) : utf8Char c = [c] := by
  simp [utf8Char, h]

theorem utf8Char_ne_nil (c : Nat) : utf8Char c ≠ [] := by
  unfold utf8Char
  split
  · simp
  · split
    · simp
    · split <;> simp

theorem utf8Char_lt256 {c : Nat} (h : c < 4194304) :
    ∀ b ∈ utf8Char c, b < 256 := by
  intro b hb
  unfold utf8Char at hb
  split at hb
  · simp at hb; omega
  · split at hb
    · simp at hb; rcases hb with hb | hb <;> omega
    · split at hb
      · simp at hb; rcases hb with hb | hb | hb <;> omega
      · simp at hb; rcases hb with hb | hb | hb | hb <;> omega

theorem pctUnescape_cons_pctByte {b : Nat} (hb : b < 256) (t : List Nat) :
    pctUnescape (pctByte b ++ t) = (pctUnescape t).map fun l => b :: l := by
  have h1 : b / 16 < 16 := by omega
  have h2 : b % 16 < 16 := by omega
  have hb16 : 16 * (b / 16) + b % 16 = b := by omega
  simp [pctByte, pctUnescape, hexVal_hexDigitU _ h1, hexVal_hexDigitU _ h2, hb16]

theorem pctUnescape_cons_ne37 {c : Nat} (h : ¬ c = 37) (t : List Nat) :
    pctUnescape (c :: t) = (pctUnescape t).map fun l => c :: l := by
  rw [pctUnescape.eq_def]
  simp only [h, if_false]

theorem pctUnescape_encodeURI :
    ∀ s : List Nat, (∀ c ∈ s, c < 128) →
      pctUnescape (encodeURIComponentJs s) = some s := by
  intro s
  induction s with
  | nil => intro _; rfl
  | cons c t ih =>
    intro h
    have hc : c < 128 := h c (List.mem_cons_self c t)
    have ht := fun d hd => h d (List.mem_cons_of_mem c hd)
    by_cases hu : uriUnescaped c
    · have hstep : encodeURIComponentJs (c :: t)
          = c :: encodeURIComponentJs t := by
        simp [encodeURIComponentJs, List.flatMap_cons, hu]
      rw [hstep, pctUnescape_cons_ne37 (uriUnescaped_ne37 hu), ih ht]
      rfl
    · have hstep : encodeURIComponentJs (c :: t)
          = pctByte c ++ encodeURIComponentJs t := by
        simp [encodeURIComponentJs, List.flatMap_cons, hu, utf8Char_ascii hc]
      rw [hstep, pctUnescape_cons_pctByte (by omega), ih ht]
      rfl

theorem utf8Decode_cons_ascii {b : Nat} (hb : b < 128) (t : List Nat) :
    utf8Decode (b :: t) = (utf8Decode t).map fun l => b :: l := by
  unfold utf8Decode
  rw [utf8DecodeSt.eq_def]
  simp only [if_pos hb]

theorem utf8Decode_ascii :
    ∀ s : List Nat, (∀ c ∈ s, c < 128) → utf8Decode s = some s := by
  intro s
  induction s with
  | nil => intro _; rfl
  | cons c t ih =>
    intro h
    have hc : c < 128 := h c (List.mem_cons_self c t)
    rw [utf8Decode_cons_ascii hc, ih fun d hd => h d (List.mem_cons_of_mem c hd)]
    rfl

theorem decodeURI_encodeURI {s : List Nat} (h : ∀ c ∈ s, c < 128) :
    decodeURIComponentJs (encodeURIComponentJs s) = some s := by
  simp [decodeURIComponentJs, pctUnescape_encodeURI s h, utf8Decode_ascii s h]

theorem encodeURIComponentJs_ne_nil {s : List Nat} (h : s ≠ []) :
    encodeURIComponentJs s ≠ [] := by
  match s with
  | c :: t =>
    simp only [encodeURIComponentJs, List.flatMap_cons]
    intro hemp
    rcases List.append_eq_nil.mp hemp with ⟨h1, _⟩
    by_cases hu : uriUnescaped c
    · simp [hu] at h1
    · simp only [hu, if_false] at h1
      rcases hx : utf8Char c with _ | ⟨b, bs⟩
      · exact utf8Char_ne_nil c hx
      · rw [hx] at h1
        simp [pctByte] at h1

theorem encodeURI_mem_range {s : List Nat} (hs : ∀ c ∈ s, c < 4194304) :
    ∀ d ∈ encodeURIComponentJs s, 33 ≤ d ∧ d ≤ 126 := by
  intro d hd
  simp only [encodeURIComponentJs, List.mem_flatMap] at hd
  obtain ⟨c, hc, hdc⟩ := hd
  split at hdc
  · next hu =>
    rcases List.mem_singleton.mp hdc with rfl
    exact uriUnescaped_bounds hu
  · simp only [List.mem_flatMap] at hdc
    obtain ⟨b, hb, hdb⟩ := hdc
    have hb256 : b < 256 := utf8Char_lt256 (hs c hc) b hb
    have hd16 : ∀ n < 16, 33 ≤ hexDigitU n ∧ hexDigitU n ≤ 126 := by decide
    simp only [pctByte, List.mem_cons, List.not_mem_nil, or_false] at hdb
    rcases hdb with rfl | rfl | rfl
    · omega
    · exact hd16 _ (by omega)
    · exact hd16 _ (by omega)

/-! ## Lemmas: the XOR pass -/

theorem xorPassAux_xorPassAux :
    ∀ (s : List Nat) (f : Bool), xorPassAux f (xorPassAux f s) = s := by
  intro s
  induction s with
  | nil => intro f; rfl
  | cons c t ih =>
    intro f
    cases f <;> simp [xorPassAux, ih, Nat.xor_assoc]

theorem xorPass_xorPass (s : List Nat) : xorPass (xorPass s) = s :=
  xorPassAux_xorPassAux s false

theorem xorPassAux_length :
    ∀ (s : List Nat) (f : Bool), (xorPassAux f s).length = s.length := by
  intro s
  induction s with
  | nil => intro f; rfl
  | cons c t ih => intro f; simp [xorPassAux, ih]

theorem xorPassAux_lt {k : Nat} (hk : 2 ≤ k) :
    ∀ (s : List Nat) (f : Bool), (∀ c ∈ s, c < 2 ^ k) →
      ∀ c ∈ xorPassAux f s, c < 2 ^ k := by
  intro s
  induction s with
  | nil => intro f _ c hc; simp [xorPassAux] at hc
  | cons a t ih =>
    intro f h c hc
    have ha : a < 2 ^ k := h a (List.mem_cons_self a t)
    have h2 : (2 : Nat) < 2 ^ k :=
      lt_of_lt_of_le (by norm_num) (Nat.pow_le_pow_right (by norm_num) hk)
    simp only [xorPassAux, List.mem_cons] at hc
    rcases hc with rfl | hc
    · cases f
      · simpa using ha
      · simpa using Nat.xor_lt_two_pow ha h2
    · exact ih (!f) (fun d hd => h d (List.mem_cons_of_mem a hd)) c hc

/-! ## Lemmas: base64 round-trip -/

theorem b64Val_b64Char : ∀ n < 64, b64Val (b64Char n) = some n := by decide

theorem b64Char_ne61 : ∀ n < 64, b64Char n ≠ 61 := by decide

theorem b64Encode_ne_nil {x : List Nat} (h : x ≠ []) : b64Encode x ≠ [] := by
  match x with
  | [a] => simp [b64Encode]
  | [a, b] => simp [b64Encode]
  | a :: b :: c :: r => simp [b64Encode]

theorem b64Encode_len4 : ∀ x : List Nat, (b64Encode x).length % 4 = 0
  | [] => by simp [b64Encode]
  | [a] => by simp [b64Encode]
  | [a, b] => by simp [b64Encode]
  | a :: b :: c :: rest => by
    have ih := b64Encode_len4 rest
    simp only [b64Encode, List.length_cons]
    omega

theorem b64StripPad_append (g e : List Nat) (he : 2 ≤ e.length) :
    b64StripPad (g ++ e) = g ++ b64StripPad e := by
  rcases hrev : e.reverse with _ | ⟨x1, rest1⟩
  · have : e = [] := by
      have := congrArg List.reverse hrev
      simpa using this
    subst this
    simp at he
  · rcases rest1 with _ | ⟨x2, r⟩
    · have : e.length = 1 := by
        have := congrArg List.length hrev
        simpa using this
      omega
    · have hg : (g ++ e).reverse = x1 :: x2 :: (r ++ g.reverse) := by
        rw [List.reverse_append, hrev]
        simp
      simp only [b64StripPad, hg, hrev]
      by_cases h1 : x1 = 61
      · by_cases h2 : x2 = 61
        · simp [h1, h2, List.reverse_append]
        · simp [h1, h2, List.reverse_append]
      · simp [h1]

theorem b64_decode_strip :
    ∀ x : List Nat, (∀ b ∈ x, b < 256) →
      b64DecodeBody (b64StripPad (b64Encode x)) = some x ∧
      (b64StripPad (b64Encode x)).length % 4 ≠ 1
  | [] => fun _ => by simp [b64Encode, b64StripPad, b64DecodeBody]
  | [a] => fun h => by
    have ha : a < 256 := h a (by simp)
    have h4 : a / 4 < 64 := by omega
    have h16 : a % 4 * 16 < 64 := by omega
    have hstrip : b64StripPad (b64Encode [a])
        = [b64Char (a / 4), b64Char (a % 4 * 16)] := by
      simp [b64Encode, b64StripPad]
    rw [hstrip]
    refine ⟨?_, by simp⟩
    have hval : a / 4 * 4 + a % 4 * 16 / 16 = a := by omega
    simp only [b64DecodeBody, b64Val_b64Char _ h4, b64Val_b64Char _ h16]
    simp only [Option.some.injEq, List.cons.injEq, and_true]
    omega
  | [a, b] => fun h => by
    have ha : a < 256 := h a (by simp)
    have hb : b < 256 := h b (by simp)
    have h1 : a / 4 < 64 := by omega
    have h2 : a % 4 * 16 + b / 16 < 64 := by omega
    have h3 : b % 16 * 4 < 64 := by omega
    have hstrip : b64StripPad (b64Encode [a, b])
        = [b64Char (a / 4), b64Char (a % 4 * 16 + b / 16),
           b64Char (b % 16 * 4)] := by
      simp [b64Encode, b64StripPad, b64Char_ne61 _ h3]
    rw [hstrip]
    refine ⟨?_, by simp⟩
    have hva : a / 4 * 4 + (a % 4 * 16 + b / 16) / 16 = a := by omega
    have hvb : (a % 4 * 16 + b / 16) % 16 * 16 + b % 16 * 4 / 4 = b := by omega
    simp only [b64DecodeBody, b64Val_b64Char _ h1, b64Val_b64Char _ h2,
      b64Val_b64Char _ h3]
    simp only [Option.some.injEq, List.cons.injEq, and_true]
    constructor
    · omega
    · omega
  | a :: b :: c :: rest => fun h => by
    have ha : a < 256 := h a (by simp)
    have hb : b < 256 := h b (by simp)
    have hc : c < 256 := h c (by simp)
    have h1 : a / 4 < 64 := by omega
    have h2 : a % 4 * 16 + b / 16 < 64 := by omega
    have h3 : b % 16 * 4 + c / 64 < 64 := by omega
    have h4 : c % 64 < 64 := by omega
    have hva : a / 4 * 4 + (a % 4 * 16 + b / 16) / 16 = a := by omega
    have hvb : (a % 4 * 16 + b / 16) % 16 * 16 + (b % 16 * 4 + c / 64) / 4 = b := by
      omega
    have hvc : (b % 16 * 4 + c / 64) % 4 * 64 + c % 64 = c := by omega
    have henc : b64Encode (a :: b :: c :: rest)
        = [b64Char (a / 4), b64Char (a % 4 * 16 + b / 16),
           b64Char (b % 16 * 4 + c / 64), b64Char (c % 64)]
          ++ b64Encode rest := by
      simp [b64Encode]
    cases rest with
    | nil =>
      have hstrip : b64StripPad (b64Encode [a, b, c])
          = [b64Char (a / 4), b64Char (a % 4 * 16 + b / 16),
             b64Char (b % 16 * 4 + c / 64), b64Char (c % 64)] := by
        simp [b64Encode, b64StripPad, b64Char_ne61 _ h4, b64Char_ne61 _ h3]
      rw [hstrip]
      refine ⟨?_, by simp⟩
      simp [b64DecodeBody, b64Val_b64Char _ h1, b64Val_b64Char _ h2,
        b64Val_b64Char _ h3, b64Val_b64Char _ h4, hva, hvb, hvc]
    | cons r0 rt =>
      have ih := b64_decode_strip (r0 :: rt) fun d hd => h d (by simp [hd])
      have hne : b64Encode (r0 :: rt) ≠ [] := b64Encode_ne_nil (by simp)
      have hl4 := b64Encode_len4 (r0 :: rt)
      have he2 : 2 ≤ (b64Encode (r0 :: rt)).length := by
        rcases Nat.eq_zero_or_pos (b64Encode (r0 :: rt)).length with h0 | h0
        · exact absurd (List.length_eq_zero.mp h0) hne
        · omega
      rw [henc, b64StripPad_append _ _ he2]
      constructor
      · simp [List.cons_append, List.nil_append, b64DecodeBody,
          b64Val_b64Char _ h1, b64Val_b64Char _ h2, b64Val_b64Char _ h3,
          b64Val_b64Char _ h4, hva, hvb, hvc, ih.1]
      · have := ih.2
        simp only [List.length_append, List.length_cons, List.length_nil]
        omega

theorem atobJs_b64Encode {x : List Nat} (h : ∀ b ∈ x, b < 256) :
    atobJs (b64Encode x) = some x := by
  have hmain := b64_decode_strip x h
  simp [atobJs, b64Encode_len4 x, hmain.2, hmain.1]

theorem urlLegalChar_lt {c : Nat} (h : urlLegalChar c = true) : c < 128 := by
  simp only [urlLegalChar, isAsciiAlpha, isAsciiDigit, Bool.or_eq_true,
    Bool.and_eq_true, decide_eq_true_eq] at h
  omega

theorem xorPass_ne_nil {s : List Nat} (h : s ≠ []) : xorPass s ≠ [] := by
  intro h0
  apply h
  have := xorPassAux_length s false
  rw [xorPass] at h0
  rw [h0] at this
  exact List.length_eq_zero.mp this.symm

theorem encodeURI_all_lt256 {s : List Nat} (h : ∀ c ∈ s, c < 128) :
    (encodeURIComponentJs s).all (fun c => c < 256) = true := by
  rw [List.all_eq_true]
  intro d hd
  have := encodeURI_mem_range (fun c hc => lt_of_lt_of_le (h c hc) (by norm_num)) d hd
  simp only [decide_eq_true_eq]
  omega

/-- C1.  For every supported codec (`none`, `plain`, `xor`, `base64`)
and every string of URL-legal characters, `decode(encode(s)) = s`, with
neither direction throwing. -/
theorem c1_codecs_roundtrip :
    ∀ cdc ∈ supportedCodecs, ∀ s : List Nat,
      (∀ c ∈ s, urlLegalChar c = true) →
      (cdc.enc s).bind cdc.dec = Except.ok s := by
  intro cdc hcdc s hs
  have h128 : ∀ c ∈ s, c < 128 := fun c hc => urlLegalChar_lt (hs c hc)
  simp only [supportedCodecs, List.mem_cons, List.not_mem_nil, or_false] at hcdc
  rcases hcdc with rfl | rfl | rfl | rfl
  · rfl
  · -- plain
    by_cases hnil : s = []
    · subst hnil; rfl
    · have hene := encodeURIComponentJs_ne_nil hnil
      simp [codecPlain, hnil, Except.bind, hene, decodeURI_encodeURI h128,
        orThrow]
  · -- xor
    by_cases hnil : s = []
    · subst hnil; rfl
    · have hxne := xorPass_ne_nil hnil
      have hene := encodeURIComponentJs_ne_nil hxne
      have hx128 : ∀ c ∈ xorPass s, c < 128 := by
        have := xorPassAux_lt (k := 7) (by norm_num) s false
          (by simpa using h128)
        simpa [xorPass] using this
      simp [codecXor, hnil, Except.bind, hene, decodeURI_encodeURI hx128,
        orThrow, Except.map, xorPass_xorPass]
  · -- base64
    by_cases hnil : s = []
    · subst hnil; rfl
    · have hene := encodeURIComponentJs_ne_nil hnil
      have hlt := encodeURI_all_lt256 h128
      have he128 : ∀ c ∈ encodeURIComponentJs s, c < 256 := by
        intro c hc
        have := encodeURI_mem_range
          (fun c hc => lt_of_lt_of_le (h128 c hc) (by norm_num)) c hc
        omega
      have hb64ne : b64Encode (encodeURIComponentJs s) ≠ [] :=
        b64Encode_ne_nil hene
      have hbtoa : btoaJs (encodeURIComponentJs s)
          = some (b64Encode (encodeURIComponentJs s)) := by
        simp [btoaJs, hlt]
      simp [codecBase64, hnil, Except.bind, hbtoa, orThrow, hb64ne,
        atobJs_b64Encode he128, decodeURI_encodeURI h128]

/-- Witness for C1 at the `base64` codec and a concrete URL. -/
theorem c1_witness :
    codecBase64 ∈ supportedCodecs ∧
    (codecBase64.enc (str "https://example.com/a?b=1")).bind codecBase64.dec
      = Except.ok (str "https://example.com/a?b=1") :=
  ⟨by simp [supportedCodecs],
   c1_codecs_roundtrip codecBase64 (by simp [supportedCodecs]) _ (by decide)⟩

/-! ## Lemmas: trimming, prefixes, infixes -/

theorem jsTrim_eq_rdrop (l : List Nat) :
    jsTrim l = List.rdropWhile isJsWs (l.dropWhile isJsWs) := rfl

theorem dropWhile_eq_self_of_prefix {p : Nat → Bool} {y x : List Nat}
    (hpre : y <+: x) (hx : x.dropWhile p = x) : y.dropWhile p = y := by
  rcases y with _ | ⟨a, t⟩
  · simp
  · obtain ⟨rest, hrest⟩ := hpre
    rcases x with _ | ⟨b, u⟩
    · simp at hrest
    · have hab : a = b ∧ t ++ rest = u := by
        simpa using hrest
      obtain ⟨rfl, _⟩ := hab
      rw [List.dropWhile_cons] at hx
      by_cases hpa : p a
      · rw [if_pos hpa] at hx
        have hlen := congrArg List.length hx
        have hle : (u.dropWhile p).length ≤ u.length :=
          (List.dropWhile_suffix p).length_le
        simp at hlen
        omega
      · rw [List.dropWhile_cons, if_neg hpa]

theorem jsTrim_idem (l : List Nat) : jsTrim (jsTrim l) = jsTrim l := by
  rw [jsTrim_eq_rdrop, jsTrim_eq_rdrop]
  have hpre := List.rdropWhile_prefix isJsWs (l.dropWhile isJsWs)
  have hdd : (List.rdropWhile isJsWs (l.dropWhile isJsWs)).dropWhile isJsWs
      = List.rdropWhile isJsWs (l.dropWhile isJsWs) :=
    dropWhile_eq_self_of_prefix hpre (List.dropWhile_idempotent isJsWs l)
  rw [hdd, List.rdropWhile_idempotent]

theorem isJsWs_false_of_range {c : Nat} (h1 : 33 ≤ c) (h2 : c ≤ 126) :
    isJsWs c = false := by
  simp only [isJsWs, Bool.or_eq_false_iff, decide_eq_false_iff_not]
  omega

theorem jsTrim_eq_self {l : List Nat} (h : ∀ c ∈ l, 33 ≤ c ∧ c ≤ 126) :
    jsTrim l = l := by
  rw [jsTrim_eq_rdrop]
  have hd : l.dropWhile isJsWs = l := by
    rcases hl : l with _ | ⟨a, t⟩
    · simp
    · rw [List.dropWhile_eq_self_iff]
      intro _
      have := h a (by simp [hl])
      simp [isJsWs_false_of_range this.1 this.2]
  rw [hd, List.rdropWhile_eq_self_iff]
  intro hl
  have := h (l.getLast hl) (List.getLast_mem hl)
  simp [isJsWs_false_of_range this.1 this.2]

theorem svcPre_range : ∀ c ∈ svcPre, 33 ≤ c ∧ c ≤ 126 := by decide

theorem svcPre_cons : svcPre = 47 :: str "service/" := by decide

theorem jsIncludes_append_self (x : List Nat) :
    jsIncludes (svcPre ++ x) svcPre = true := by
  simp only [jsIncludes, decide_eq_true_eq]
  exact (List.prefix_append svcPre x).isInfix

theorem jsStarts_cons_ne {a b : Nat} (h : b ≠ a) (s pat : List Nat) :
    jsStarts (a :: s) (b :: pat) = false := by
  simp [jsStarts, List.isPrefixOf, h]

theorem hSkipScheme_slash (r : List Nat) : hSkipScheme (47 :: r) = false := by
  have h1 : str "data:" = 100 :: str "ata:" := by decide
  have h2 : str "blob:" = 98 :: str "lob:" := by decide
  have h3 : str "javascript:" = 106 :: str "avascript:" := by decide
  have h4 : str "about:" = 97 :: str "bout:" := by decide
  have h5 : str "mailto:" = 109 :: str "ailto:" := by decide
  have h6 : str "tel:" = 116 :: str "el:" := by decide
  have h7 : str "#" = 35 :: [] := by decide
  simp [hSkipScheme, h1, h2, h3, h4, h5, h6, h7, jsStarts_cons_ne]

/-- The characters of the handler's encoder output are printable ASCII
(so in particular not JavaScript whitespace). -/
theorem xorEncode_range {s : List Nat} (hs : ∀ c ∈ s, c < 4194304) :
    ∀ d ∈ xorEncode s, 33 ≤ d ∧ d ≤ 126 := by
  intro d hd
  by_cases hnil : s = []
  · subst hnil; simp [xorEncode] at hd
  · rw [xorEncode, if_neg hnil] at hd
    have hx : ∀ c ∈ xorPass s, c < 4194304 := by
      have h22 : (4194304 : Nat) = 2 ^ 22 := by norm_num
      intro c hc
      rw [h22]
      exact xorPassAux_lt (by norm_num) s false
        (by intro c hc; rw [← h22]; exact hs c hc) c (by simpa [xorPass] using hc)
    exact encodeURI_mem_range hx d hd

/-! ## Lemmas: characters of a resolved URL come from the inputs
(or are ASCII punctuation the resolver inserts) -/

theorem mem_of_mem_takeWhile {p : Nat → Bool} {c : Nat} {l : List Nat}
    (h : c ∈ l.takeWhile p) : c ∈ l :=
  (List.takeWhile_prefix p).sublist.subset h

theorem mem_of_mem_dropWhile {p : Nat → Bool} {c : Nat} {l : List Nat}
    (h : c ∈ l.dropWhile p) : c ∈ l :=
  (List.dropWhile_suffix p).sublist.subset h

theorem pqhPath_mem {c : Nat} {t : List Nat} (h : c ∈ pqhPath t) : c ∈ t :=
  mem_of_mem_takeWhile (mem_of_mem_takeWhile h)

theorem pqhQuery_mem {c : Nat} {t : List Nat} (h : c ∈ pqhQuery t) : c ∈ t :=
  mem_of_mem_takeWhile (mem_of_mem_dropWhile h)

theorem pqhHash_mem {c : Nat} {t : List Nat} (h : c ∈ pqhHash t) : c ∈ t :=
  mem_of_mem_dropWhile h

theorem hostOf_mem {c : Nat} {r : List Nat} (h : c ∈ hostOf r) : c ∈ r :=
  List.drop_subset 2 r (mem_of_mem_takeWhile h)

theorem tailOf_mem {c : Nat} {r : List Nat} (h : c ∈ tailOf r) : c ∈ r :=
  List.drop_subset 2 r (mem_of_mem_dropWhile h)

theorem dirOf_mem {c : Nat} {p : List Nat} (h : c ∈ dirOf p) : c ∈ p := by
  rw [dirOf, List.mem_reverse] at h
  have := mem_of_mem_dropWhile h
  rwa [List.mem_reverse] at this

theorem splitScheme_go_mem :
    ∀ (l acc sch rest : List Nat), splitScheme.go acc l = some (sch, rest) →
      (∀ c ∈ sch, c ∈ acc ∨ c ∈ l) ∧ ∀ c ∈ rest, c ∈ l := by
  intro l
  induction l with
  | nil =>
    intro acc sch rest h
    simp [splitScheme.go] at h
  | cons a t ih =>
    intro acc sch rest h
    by_cases h58 : a = 58
    · rw [splitScheme.go, if_pos h58] at h
      have hpair : acc.reverse = sch ∧ t = rest := by
        simpa using h
      obtain ⟨rfl, rfl⟩ := hpair
      constructor
      · intro c hc
        exact Or.inl (List.mem_reverse.mp hc)
      · intro c hc
        exact List.mem_cons_of_mem a hc
    · by_cases hsc : isSchemeChar a
      · rw [splitScheme.go, if_neg h58, if_pos hsc] at h
        obtain ⟨hsch, hrest⟩ := ih (a :: acc) sch rest h
        constructor
        · intro c hc
          rcases hsch c hc with hacc | ht
          · rcases List.mem_cons.mp hacc with rfl | hacc2
            · exact Or.inr (List.mem_cons_self c t)
            · exact Or.inl hacc2
          · exact Or.inr (List.mem_cons_of_mem a ht)
        · intro c hc
          exact List.mem_cons_of_mem a (hrest c hc)
      · rw [splitScheme.go, if_neg h58, if_neg hsc] at h
        simp at h

theorem splitScheme_mem {s sch rest : List Nat}
    (h : splitScheme s = some (sch, rest)) :
    (∀ c ∈ sch, c ∈ s) ∧ ∀ c ∈ rest, c ∈ s := by
  rcases s with _ | ⟨a, t⟩
  · simp [splitScheme] at h
  · rw [splitScheme] at h
    by_cases hal : isAsciiAlpha a
    · rw [if_pos hal] at h
      obtain ⟨hsch, hrest⟩ := splitScheme_go_mem t [a] sch rest h
      constructor
      · intro c hc
        rcases hsch c hc with hacc | ht
        · rcases List.mem_singleton.mp hacc with rfl
          exact List.mem_cons_self c t
        · exact List.mem_cons_of_mem a ht
      · intro c hc
        exact List.mem_cons_of_mem a (hrest c hc)
    · rw [if_neg hal] at h
      simp at h

theorem JsURL_href_mem {u : JsURL} :
    ∀ c ∈ u.href,
      c ∈ u.scheme ∨ c ∈ u.host ∨ c ∈ u.pathname ∨ c ∈ u.search ∨
        c ∈ u.hash ∨ c < 128 := by
  intro c hc
  rw [JsURL.href] at hc
  split at hc
  · rcases List.mem_append.mp hc with h1 | hpath
    · rcases List.mem_append.mp h1 with hsch | hcol
      · exact Or.inl hsch
      · rcases List.mem_singleton.mp hcol with rfl
        right; right; right; right; right; omega
    · right; right; exact Or.inl hpath
  · rcases List.mem_append.mp hc with h1 | hhash
    · rcases List.mem_append.mp h1 with h2 | hsearch
      · rcases List.mem_append.mp h2 with h3 | hpath
        · rcases List.mem_append.mp h3 with h4 | hhost
          · rcases List.mem_append.mp h4 with hsch | hcol
            · exact Or.inl hsch
            · have hcol2 : c ∈ [58, 47, 47] := by
                have he : str "://" = [58, 47, 47] := by decide
                rwa [he] at hcol
              right; right; right; right; right
              simp only [List.mem_cons, List.not_mem_nil, or_false] at hcol2
              omega
          · right; exact Or.inl hhost
        · right; right; exact Or.inl hpath
      · right; right; right; exact Or.inl hsearch
    · right; right; right; right; exact Or.inl hhash

theorem parseAbsolute_component_mem {s : List Nat} {u : JsURL}
    (h : parseAbsolute s = some u) :
    (∀ c ∈ u.scheme, c ∈ s) ∧ (∀ c ∈ u.host, c ∈ s) ∧
    (∀ c ∈ u.pathname, c ∈ s ∨ c < 128) ∧ (∀ c ∈ u.search, c ∈ s) ∧
    ∀ c ∈ u.hash, c ∈ s := by
  rcases hsp : splitScheme s with _ | ⟨sch, rest⟩
  · rw [parseAbsolute, hsp] at h
    simp at h
  · have hsm := splitScheme_mem hsp
    rw [parseAbsolute, hsp] at h
    simp only [Option.some_bind] at h
    by_cases hspec : isSpecialScheme sch
    · rw [if_pos hspec] at h
      by_cases hss : jsStarts rest (str "//")
      · rw [if_pos hss] at h
        by_cases hhost : hostOf rest = []
        · rw [if_pos hhost] at h; simp at h
        · rw [if_neg hhost] at h
          have hu := Option.some.inj h
          subst hu
          refine ⟨fun c hc => hsm.1 c hc,
                  fun c hc => hsm.2 c (hostOf_mem hc), ?_,
                  fun c hc => hsm.2 c (tailOf_mem (pqhQuery_mem hc)),
                  fun c hc => hsm.2 c (tailOf_mem (pqhHash_mem hc))⟩
          intro c hc
          simp only at hc
          split at hc
          · rcases List.mem_singleton.mp hc with rfl
            right; omega
          · exact Or.inl (hsm.2 c (tailOf_mem (pqhPath_mem hc)))
      · rw [if_neg hss] at h; simp at h
    · rw [if_neg hspec] at h
      have hu := Option.some.inj h
      subst hu
      exact ⟨fun c hc => hsm.1 c hc, fun c hc => by simp at hc,
             fun c hc => Or.inl (hsm.2 c hc), fun c hc => by simp at hc,
             fun c hc => by simp at hc⟩

theorem parseAbsolute_href_mem {s : List Nat} {u : JsURL}
    (h : parseAbsolute s = some u) : ∀ c ∈ u.href, c ∈ s ∨ c < 128 := by
  intro c hc
  obtain ⟨h1, h2, h3, h4, h5⟩ := parseAbsolute_component_mem h
  rcases JsURL_href_mem c hc with hx | hx | hx | hx | hx | hx
  · exact Or.inl (h1 c hx)
  · exact Or.inl (h2 c hx)
  · exact h3 c hx
  · exact Or.inl (h4 c hx)
  · exact Or.inl (h5 c hx)
  · exact Or.inr hx

theorem jsNewURL_href_mem {url base : List Nat} {u : JsURL}
    (h : jsNewURL url base = some u) :
    ∀ c ∈ u.href, c ∈ url ∨ c ∈ base ∨ c < 128 := by
  intro c hc
  rw [jsNewURL] at h
  rcases hpa : parseAbsolute url with _ | v
  · rw [hpa] at h
    rcases hpb : parseAbsolute base with _ | b
    · rw [hpb] at h; simp at h
    · rw [hpb] at h
      simp only [Option.some_bind] at h
      have hbm := parseAbsolute_component_mem hpb
      by_cases hns : b.nonSpecial
      · rw [if_pos hns] at h; simp at h
      · rw [if_neg hns] at h
        by_cases hpr : jsStarts url (str "//")
        · rw [if_pos hpr] at h
          rcases parseAbsolute_href_mem h c hc with hin | hlt
          · rcases List.mem_append.mp hin with h1 | hurl
            · rcases List.mem_append.mp h1 with hsch | hcol
              · exact Or.inr (Or.inl (hbm.1 c hsch))
              · rcases List.mem_singleton.mp hcol with rfl
                right; right; omega
            · exact Or.inl hurl
          · right; right; exact hlt
        · rw [if_neg hpr] at h
          by_cases h47 : jsStarts url [47]
          · rw [if_pos h47] at h
            have hu := Option.some.inj h
            subst hu
            rcases JsURL_href_mem c hc with hx | hx | hx | hx | hx | hx
            · exact Or.inr (Or.inl (hbm.1 c hx))
            · exact Or.inr (Or.inl (hbm.2.1 c hx))
            · exact Or.inl (pqhPath_mem hx)
            · exact Or.inl (pqhQuery_mem hx)
            · exact Or.inl (pqhHash_mem hx)
            · right; right; exact hx
          · rw [if_neg h47] at h
            by_cases h63 : jsStarts url [63]
            · rw [if_pos h63] at h
              have hu := Option.some.inj h
              subst hu
              rcases JsURL_href_mem c hc with hx | hx | hx | hx | hx | hx
              · exact Or.inr (Or.inl (hbm.1 c hx))
              · exact Or.inr (Or.inl (hbm.2.1 c hx))
              · rcases hbm.2.2.1 c hx with hb | hlt
                · exact Or.inr (Or.inl hb)
                · right; right; exact hlt
              · exact Or.inl (pqhQuery_mem hx)
              · exact Or.inl (pqhHash_mem hx)
              · right; right; exact hx
            · rw [if_neg h63] at h
              by_cases h35 : jsStarts url [35]
              · rw [if_pos h35] at h
                have hu := Option.some.inj h
                subst hu
                rcases JsURL_href_mem c hc with hx | hx | hx | hx | hx | hx
                · exact Or.inr (Or.inl (hbm.1 c hx))
                · exact Or.inr (Or.inl (hbm.2.1 c hx))
                · rcases hbm.2.2.1 c hx with hb | hlt
                  · exact Or.inr (Or.inl hb)
                  · right; right; exact hlt
                · exact Or.inr (Or.inl (hbm.2.2.2.1 c hx))
                · exact Or.inl hx
                · right; right; exact hx
              · rw [if_neg h35] at h
                by_cases hemp : url = []
                · rw [if_pos hemp] at h
                  have hu := Option.some.inj h
                  subst hu
                  rcases JsURL_href_mem c hc with hx | hx | hx | hx | hx | hx
                  · exact Or.inr (Or.inl (hbm.1 c hx))
                  · exact Or.inr (Or.inl (hbm.2.1 c hx))
                  · rcases hbm.2.2.1 c hx with hb | hlt
                    · exact Or.inr (Or.inl hb)
                    · right; right; exact hlt
                  · exact Or.inr (Or.inl (hbm.2.2.2.1 c hx))
                  · simp at hx
                  · right; right; exact hx
                · rw [if_neg hemp] at h
                  have hu := Option.some.inj h
                  subst hu
                  rcases JsURL_href_mem c hc with hx | hx | hx | hx | hx | hx
                  · exact Or.inr (Or.inl (hbm.1 c hx))
                  · exact Or.inr (Or.inl (hbm.2.1 c hx))
                  · rcases List.mem_append.mp hx with hdir | hp
                    · rcases hbm.2.2.1 c (dirOf_mem hdir) with hb | hlt
                      · exact Or.inr (Or.inl hb)
                      · right; right; exact hlt
                    · exact Or.inl (pqhPath_mem hp)
                  · exact Or.inl (pqhQuery_mem hx)
                  · exact Or.inl (pqhHash_mem hx)
                  · right; right; exact hx
  · rw [hpa] at h
    have hu := Option.some.inj h
    subst hu
    rcases parseAbsolute_href_mem hpa c hc with hin | hlt
    · exact Or.inl hin
    · right; right; exact hlt

theorem resolveHref_mem {url base h : List Nat}
    (hr : resolveHref url base = some h) :
    ∀ c ∈ h, c ∈ url ∨ c ∈ base ∨ c < 128 := by
  rcases hn : jsNewURL url base with _ | u
  · rw [resolveHref, hn] at hr; simp at hr
  · rw [resolveHref, hn] at hr
    have hh := Option.some.inj hr
    subst hh
    exact jsNewURL_href_mem hn

/-! ## C2: idempotence -/

theorem jsTrim_subset {c : Nat} {l : List Nat} (h : c ∈ jsTrim l) : c ∈ l := by
  rw [jsTrim_eq_rdrop] at h
  exact (List.dropWhile_suffix _).sublist.subset
    ((List.rdropWhile_prefix _ _).sublist.subset h)

theorem hRewriteUrl_fix (src base X : List Nat)
    (hX : ∀ c ∈ X, 33 ≤ c ∧ c ≤ 126) :
    hRewriteUrl src (svcPre ++ X) base = svcPre ++ X := by
  have hne : svcPre ++ X ≠ [] := by
    rw [svcPre_cons]; simp
  have hrange : ∀ c ∈ svcPre ++ X, 33 ≤ c ∧ c ≤ 126 := by
    intro c hc
    rcases List.mem_append.mp hc with h | h
    · exact svcPre_range c h
    · exact hX c h
  have htrim : jsTrim (svcPre ++ X) = svcPre ++ X := jsTrim_eq_self hrange
  have hskip : hSkipScheme (svcPre ++ X) = false := by
    rw [svcPre_cons, List.cons_append]
    exact hSkipScheme_slash _
  rw [hRewriteUrl, if_neg hne, htrim]
  simp [hskip, jsIncludes_append_self X]

/-- C2 (amended).  The handler's `rewriteUrl` is idempotent (for any
source/base context; the hypotheses only say the strings consist of
Unicode code points). -/
theorem c2_handler_rewriteUrl_idempotent (src base u : List Nat)
    (hu : ∀ c ∈ u, c < 1114112) (hb : ∀ c ∈ base, c < 1114112)
    (hsrc : ∀ c ∈ src, c < 1114112) :
    hRewriteUrl src (hRewriteUrl src u base) base
      = hRewriteUrl src u base := by
  by_cases hnil : u = []
  · subst hnil
    have h0 : hRewriteUrl src [] base = [] := by rw [hRewriteUrl]; simp
    rw [h0, h0]
  · have htt : jsTrim (jsTrim u) = jsTrim u := jsTrim_idem u
    by_cases hskip : hSkipScheme (jsTrim u)
    · have hr : hRewriteUrl src u base = jsTrim u := by
        rw [hRewriteUrl, if_neg hnil, if_pos hskip]
      rw [hr]
      by_cases htnil : jsTrim u = []
      · rw [htnil, hRewriteUrl]; simp
      · rw [hRewriteUrl, if_neg htnil, htt, if_pos hskip]
    · by_cases hincl : jsIncludes (jsTrim u) svcPre
      · have hr : hRewriteUrl src u base = jsTrim u := by
          rw [hRewriteUrl, if_neg hnil, if_neg hskip, if_pos hincl]
        have htne : jsTrim u ≠ [] := by
          intro h0
          rw [h0] at hincl
          exact absurd hincl (by decide)
        rw [hr, hRewriteUrl, if_neg htne, htt, if_neg hskip, if_pos hincl]
      · rcases hres : resolveHref (jsTrim u) (if base = [] then src else base)
          with _ | abs
        · have hr : hRewriteUrl src u base = jsTrim u := by
            rw [hRewriteUrl, if_neg hnil, if_neg hskip, if_neg hincl, hres]
          by_cases htnil : jsTrim u = []
          · rw [hr, htnil, hRewriteUrl]; simp
          · rw [hr, hRewriteUrl, if_neg htnil, htt, if_neg hskip,
              if_neg hincl, hres]
        · have hr : hRewriteUrl src u base
              = svcPre ++ xorEncode abs := by
            rw [hRewriteUrl, if_neg hnil, if_neg hskip, if_neg hincl, hres]
          have habs : ∀ c ∈ abs, c < 4194304 := by
            intro c hc
            rcases resolveHref_mem hres c hc with h | h | h
            · have := hu c (jsTrim_subset h)
              omega
            · by_cases hbe : base = []
              · rw [if_pos hbe] at h
                have := hsrc c h
                omega
              · rw [if_neg hbe] at h
                have := hb c h
                omega
            · omega
          rw [hr]
          exact hRewriteUrl_fix src base _ (xorEncode_range habs)

/-- Witness for the amended C2 theorem at a concrete URL and context. -/
theorem c2_witness :
    hRewriteUrl (str "https://a.com/")
        (hRewriteUrl (str "https://a.com/") (str "https://a.com/x") []) []
      = hRewriteUrl (str "https://a.com/") (str "https://a.com/x") [] :=
  c2_handler_rewriteUrl_idempotent (str "https://a.com/") [] (str "https://a.com/x")
    (by decide) (by decide) (by decide)

/-- C2 counterexample.  The bundle's `Ultraviolet.rewriteUrl` is not
idempotent: it re-encodes an already-proxied URL, because it has no
already-prefixed check.  Concrete meta: origin `https://proxy.io`, page
url `https://a.com/`, the configured xor encoder. -/
theorem c2_counterexample :
    bundleRewriteUrl xorEncode ⟨[], str "https://a.com/", str "https://proxy.io"⟩
        ⟨str "https://proxy.io/service/abc", str "https:", str "https://proxy.io"⟩
        (bundleRewriteUrl xorEncode
          ⟨[], str "https://a.com/", str "https://proxy.io"⟩
          ⟨str "https://proxy.io/service/abc", str "https:", str "https://proxy.io"⟩
          (str "https://a.com/x"))
      ≠ bundleRewriteUrl xorEncode
          ⟨[], str "https://a.com/", str "https://proxy.io"⟩
          ⟨str "https://proxy.io/service/abc", str "https:", str "https://proxy.io"⟩
          (str "https://a.com/x") := by decide

/-! ## C10: substring containment decides already-rewritten -/

/-- C10.  The handler's `rewriteUrl` treats any (trimmed, non-empty,
non-skip-scheme) string that merely CONTAINS the prefix `/service/`
anywhere as already rewritten and returns it unchanged — even an
un-proxied absolute URL whose path happens to contain the prefix. -/
theorem c10_includes_means_rewritten (src base u : List Nat)
    (hne : u ≠ []) (htrim : jsTrim u = u) (hskip : hSkipScheme u = false)
    (hincl : jsIncludes u svcPre = true) :
    hRewriteUrl src u base = u := by
  rw [hRewriteUrl, if_neg hne, htrim]
  simp [hskip, hincl]

/-- Witness for C10: an un-proxied URL on a foreign host whose path
contains `/service/` is returned unchanged. -/
theorem c10_witness :
    hRewriteUrl (str "https://a.com/") (str "https://evil.com/service/x") []
      = str "https://evil.com/service/x" :=
  c10_includes_means_rewritten (str "https://a.com/") []
    (str "https://evil.com/service/x") (by decide) (by decide) (by decide)
    (by decide)

/-! ## C8: the scheme skip-lists -/

theorem uvUrlRegexTest_ne_nil {u : List Nat} (h : uvUrlRegexTest u = true) :
    u ≠ [] := by
  intro h0
  subst h0
  exact absurd h (by decide)

theorem hSkipScheme_ne_nil {u : List Nat} (h : hSkipScheme u = true) :
    u ≠ [] := by
  intro h0
  subst h0
  exact absurd h (by decide)

/-- C8 counterexample.  `tel:` is not on the bundle's `urlRegex`
skip-list: `Ultraviolet.rewriteUrl` proxies a `tel:` URL instead of
returning it unchanged. -/
theorem c8_counterexample :
    bundleRewriteUrl xorEncode
        ⟨[], str "https://a.com/", str "https://proxy.io"⟩
        ⟨str "https://proxy.io/service/abc", str "https:", str "https://proxy.io"⟩
        (str "tel:123")
      ≠ str "tel:123" := by decide

/-- C8 (amended).  The bundle's skip-list is
`#, about:, data:, mailto:, blob:, javascript:` (no `tel:`), and every
match — `javascript:` included — is returned unchanged (the explicit
`javascript:` re-prefix branch is unreachable and `rewriteJS` is the
identity anyway).  The handler's `rewriteUrl` skips all seven schemes,
`tel:` included, returning the input unchanged. -/
theorem c8_amended :
    (∀ (ec : List Nat → List Nat) (meta : UvMeta) (loc : JsLocation)
        (u : List Nat), jsTrim u = u → uvUrlRegexTest u = true →
        bundleRewriteUrl ec meta loc u = u) ∧
    (∀ src base u : List Nat, jsTrim u = u → hSkipScheme u = true →
        hRewriteUrl src u base = u) := by
  constructor
  · intro ec meta loc u htrim hreg
    rw [bundleRewriteUrl, if_neg (uvUrlRegexTest_ne_nil hreg), htrim]
    simp [hreg]
  · intro src base u htrim hskip
    rw [hRewriteUrl, if_neg (hSkipScheme_ne_nil hskip), htrim]
    simp [hskip]

/-- Witness for C8 (amended) at `mailto:` (bundle) and `tel:` (handler). -/
theorem c8_witness :
    bundleRewriteUrl xorEncode
        ⟨[], str "https://a.com/", str "https://proxy.io"⟩
        ⟨str "https://proxy.io/service/abc", str "https:", str "https://proxy.io"⟩
        (str "mailto:a@b.com") = str "mailto:a@b.com" ∧
    hRewriteUrl (str "https://a.com/") (str "tel:123") [] = str "tel:123" :=
  ⟨c8_amended.1 xorEncode _ _ (str "mailto:a@b.com") (by decide) (by decide),
   c8_amended.2 (str "https://a.com/") [] (str "tel:123") (by decide)
     (by decide)⟩

/-! ## C9: a throwing interception listener -/

/-- C9 counterexample.  A listener that throws during the `fetch`
hook's dispatch makes the whole intercepted call throw: the exception is
NOT caught and the original primitive is never invoked (the UVClient
`EventEmitter.emit` has no try/catch). -/
theorem c9_counterexample :
    fetchOverride [fun _ => Except.error ()] [str "https://x.example/"]
      = Except.error () := by decide

/-- C9 (amended).  In the hook dispatch used by the overrides
(UVClient's emitter), a listener exception propagates out of the
intercepted call, so the original is not invoked; only the separate
`Ultraviolet` EventEmitter catches listener exceptions and keeps the
event state from before the failing listener. -/
theorem c9_amended :
    (∀ (l : HookEv → Except Unit HookEv) (input : List Nat),
        l ⟨input, false, none⟩ = Except.error () →
        fetchOverride [l] [input] = Except.error ()) ∧
    (∀ (l : HookEv → Except Unit HookEv) (e : HookEv),
        l e = Except.error () → emitUv [l] e = e) := by
  constructor
  · intro l input h
    simp [fetchOverride, emitClient, List.foldlM, h, Except.bind, Except.map]
  · intro l e h
    simp [emitUv, List.foldl, h]

/-- Witness for C9 (amended) with a concrete throwing listener. -/
theorem c9_witness :
    fetchOverride [fun _ => Except.error ()] [str "https://y.example/"]
      = Except.error () ∧
    emitUv [fun _ => Except.error ()] ⟨str "u", false, none⟩
      = ⟨str "u", false, none⟩ :=
  ⟨c9_amended.1 (fun _ => Except.error ()) (str "https://y.example/") rfl,
   c9_amended.2 (fun _ => Except.error ()) ⟨str "u", false, none⟩ rfl⟩

/-! ## C5: cookie domain matching -/

/-- C5 counterexample.  The leading-dot branch uses a bare
`hostname.endsWith(domain.slice(1))`: the cookie for `.example.com` is
visible at `https://badexample.com/x`, although that hostname neither
equals `example.com` nor ends with `.example.com`. -/
theorem c5_counterexample :
    validateCookie ⟨str ".example.com", str "/", false, false⟩
        (str "https://badexample.com/x") false = true ∧
    str "badexample.com" ≠ str "example.com" ∧
    jsEnds (str "badexample.com") (str ".example.com") = false := by decide

/-- C5 (amended).  With a leading-dot domain the cookie is visible iff
the hostname ends with the suffix-stripped domain (a bare string-suffix
test, no dot boundary) or equals it; with a dotless domain iff the
hostname equals it or ends with `.`+domain (so subdomains also match);
and the concrete scenario of the claim holds. -/
theorem c5_amended :
    (∀ (ck : JsCookie) (metaUrl : List Nat) (js : Bool) (u : JsURL),
        parseAbsolute metaUrl = some u → ck.httpOnly = false →
        ck.secure = false → jsStarts u.pathname ck.path = true →
        ck.domain ≠ [] → jsStarts ck.domain [46] = true →
        (validateCookie ck metaUrl js = true ↔
          (jsEnds u.hostname (ck.domain.drop 1) = true ∨
            u.hostname = ck.domain.drop 1))) ∧
    (∀ (ck : JsCookie) (metaUrl : List Nat) (js : Bool) (u : JsURL),
        parseAbsolute metaUrl = some u → ck.httpOnly = false →
        ck.secure = false → jsStarts u.pathname ck.path = true →
        ck.domain ≠ [] → jsStarts ck.domain [46] = false →
        (validateCookie ck metaUrl js = true ↔
          (u.hostname = ck.domain ∨
            jsEnds u.hostname (46 :: ck.domain) = true))) ∧
    validateCookie ⟨str ".example.com", str "/", false, false⟩
        (str "https://sub.example.com/x") false = true ∧
    validateCookie ⟨str ".example.com", str "/", false, false⟩
        (str "http://example.com/x") false = true ∧
    validateCookie ⟨str ".example.com", str "/", false, false⟩
        (str "https://other.com/x") false = false := by
  refine ⟨?_, ?_, by decide, by decide, by decide⟩
  · intro ck metaUrl js u hpu hhttp hsec hpath hdom hdot
    simp [validateCookie, hpu, hhttp, hsec, hpath, cookieDomainOk, hdom, hdot]
  · intro ck metaUrl js u hpu hhttp hsec hpath hdom hdot
    simp [validateCookie, hpu, hhttp, hsec, hpath, cookieDomainOk, hdom, hdot]

/-- Witness for C5 (amended): the dot-branch characterisation applied at
the claim's own scenario cookie and `https://sub.example.com/x`. -/
theorem c5_witness :
    validateCookie ⟨str ".example.com", str "/", false, false⟩
        (str "https://sub.example.com/x") false = true :=
  (c5_amended.1 ⟨str ".example.com", str "/", false, false⟩
      (str "https://sub.example.com/x") false
      ⟨str "https", str "sub.example.com", str "/x", [], [], false⟩
      (by decide) rfl rfl (by decide) (by decide) (by decide)).mpr
    (Or.inl (by decide))

/-! ## C6: redirect Location rewriting -/

/-- C6.  A redirect response (301/302/303/307/308, or an opaque
redirect) carrying a non-empty `Location` (the source's `if (location)`
truthiness test) surfaces with the same status (302 for
the status-less opaque case) and with `Location` replaced by
`createProxyUrl` of the value resolved against the target; concretely,
upstream 302 `Location: /new` for target `https://example.com/old` yields
`Location: /service/aHR0cHM6Ly9leGFtcGxlLmNvbS9uZXc` (the encoding of
`https://example.com/new`), and decoding that token recovers
`https://example.com/new`. -/
theorem c6_redirect_location_rewritten :
    (∀ (status : Nat) (loc target href : List Nat),
        status = 301 ∨ status = 302 ∨ status = 303 ∨ status = 307 ∨
          status = 308 →
        loc ≠ [] →
        resolveHref loc target = some href →
        swHandleRedirect ⟨false, status, some loc⟩ target
          = Except.ok (.redirect (createProxyUrl href target) status)) ∧
    (∀ loc target href : List Nat,
        loc ≠ [] →
        resolveHref loc target = some href →
        swHandleRedirect ⟨true, 0, some loc⟩ target
          = Except.ok (.redirect (createProxyUrl href target) 302)) ∧
    swHandleRedirect ⟨false, 302, some (str "/new")⟩
        (str "https://example.com/old")
      = Except.ok (.redirect (svcPre ++ str "aHR0cHM6Ly9leGFtcGxlLmNvbS9uZXc")
          302) ∧
    swEncodeUrl (str "https://example.com/new")
      = some (str "aHR0cHM6Ly9leGFtcGxlLmNvbS9uZXc") ∧
    swDecodeUrl (str "aHR0cHM6Ly9leGFtcGxlLmNvbS9uZXc")
      = some (str "https://example.com/new") := by
  refine ⟨?_, ?_, by decide, by decide, by decide⟩
  · intro status loc target href hst hloc hres
    rcases hst with rfl | rfl | rfl | rfl | rfl <;>
      simp [swHandleRedirect, hloc, hres]
  · intro loc target href hloc hres
    simp [swHandleRedirect, hloc, hres]

/-- Witness for C6 at the claim's own scenario. -/
theorem c6_witness :
    swHandleRedirect ⟨false, 302, some (str "/new")⟩
        (str "https://example.com/old")
      = Except.ok (.redirect
          (createProxyUrl (str "https://example.com/new")
            (str "https://example.com/old")) 302) :=
  c6_redirect_location_rewritten.1 302 (str "/new")
    (str "https://example.com/old") (str "https://example.com/new")
    (Or.inr (Or.inl rfl)) (by decide) (by decide)

/-! ## C7: the forwarded request headers -/

/-- C7 is a code bug.  `handleProxyRequest` builds the allow-listed
header object (with synthesized Host/Origin/Referer) but then constructs
the outgoing `Request` with `headers: request.headers` — the client's
original headers go upstream verbatim, and the filtered object is never
used.  At a request carrying `cookie: secret`, the forwarded headers
still contain it (and none of the synthesized headers), while the unused
filtered object would have dropped it. -/
theorem c7_forwarded_headers_unfiltered :
    swForwardedHeaders
        [(str "cookie", str "secret"), (str "accept", str "text/html")]
      = [(str "cookie", str "secret"), (str "accept", str "text/html")] ∧
    (str "cookie", str "secret") ∈ swForwardedHeaders
        [(str "cookie", str "secret"), (str "accept", str "text/html")] ∧
    str "cookie" ∉ fwdHeaderNames ∧
    (∀ v : List Nat, (str "cookie", v) ∉ swFilteredHeaders
        [(str "cookie", str "secret"), (str "accept", str "text/html")]
        ⟨str "https", str "example.com", str "/", [], [], false⟩
        (str "https://example.com/")) := by
  refine ⟨by decide, by decide, by decide, ?_⟩
  intro v hv
  have hlist : swFilteredHeaders
      [(str "cookie", str "secret"), (str "accept", str "text/html")]
      ⟨str "https", str "example.com", str "/", [], [], false⟩
      (str "https://example.com/")
      = [(str "accept", str "text/html"),
         (str "host", str "example.com"),
         (str "origin", str "https" ++ str "://" ++ str "example.com"),
         (str "referer", str "https://example.com/")] := by decide
  rw [hlist] at hv
  simp only [List.mem_cons, List.not_mem_nil, or_false, Prod.mk.injEq] at hv
  rcases hv with ⟨h, _⟩ | ⟨h, _⟩ | ⟨h, _⟩ | ⟨h, _⟩ <;> exact absurd h (by decide)

/-- Witness for C7: the theorem's universally quantified part applied at
a concrete cookie value. -/
theorem c7_witness :
    (str "cookie", str "anything") ∉ swFilteredHeaders
        [(str "cookie", str "secret"), (str "accept", str "text/html")]
        ⟨str "https", str "example.com", str "/", [], [], false⟩
        (str "https://example.com/") :=
  c7_forwarded_headers_unfiltered.2.2.2 (str "anything")

/-! ## C4: decode failure behaviour -/

/-- C4 counterexample.  The bundle codec decoders have no try/catch:
`codecs.plain.decode` on the malformed token `%` lets the `URIError`
escape, and `codecs.base64.decode` on `!` lets the
`InvalidCharacterError` escape — decode does NOT fail with a controlled
result for every codec strategy. -/
theorem c4_counterexample :
    codecPlain.dec (str "%") = Except.error () ∧
    codecBase64.dec (str "!") = Except.error () ∧
    codecXor.dec (str "%zz") = Except.error () := by decide

/-- C4 (amended).  The `sw.js` `decodeUrl` wraps its body in
try/catch and returns null on malformed input — it never throws (shown on
the malformed tokens above) — while the bundle codec decoders propagate
the exception; encode is total on URL-legal strings for all four bundle
codecs. -/
theorem c4_amended :
    (∀ t : List Nat, ∃ v, swDecodeUrlCall t = Except.ok v) ∧
    swDecodeUrlCall (str "%") = Except.ok none ∧
    (∀ cdc ∈ supportedCodecs, ∀ s : List Nat,
        (∀ c ∈ s, urlLegalChar c = true) → ∃ t, cdc.enc s = Except.ok t) := by
  refine ⟨fun t => ⟨swDecodeUrl t, rfl⟩, by decide, ?_⟩
  intro cdc hcdc s hs
  have h128 : ∀ c ∈ s, c < 128 := fun c hc => urlLegalChar_lt (hs c hc)
  simp only [supportedCodecs, List.mem_cons, List.not_mem_nil, or_false]
    at hcdc
  rcases hcdc with rfl | rfl | rfl | rfl
  · exact ⟨s, rfl⟩
  · by_cases hnil : s = []
    · subst hnil; exact ⟨[], rfl⟩
    · exact ⟨encodeURIComponentJs s, by simp [codecPlain, hnil]⟩
  · by_cases hnil : s = []
    · subst hnil; exact ⟨[], rfl⟩
    · exact ⟨encodeURIComponentJs (xorPass s), by simp [codecXor, hnil]⟩
  · by_cases hnil : s = []
    · subst hnil; exact ⟨[], rfl⟩
    · refine ⟨b64Encode (encodeURIComponentJs s), ?_⟩
      have hbtoa : btoaJs (encodeURIComponentJs s)
          = some (b64Encode (encodeURIComponentJs s)) := by
        simp [btoaJs, encodeURI_all_lt256 h128]
      simp [codecBase64, hnil, hbtoa, orThrow]

/-- Witness for C4 (amended): encode succeeds at a concrete URL for the
xor codec. -/
theorem c4_witness :
    ∃ t, codecXor.enc (str "https://example.com/") = Except.ok t :=
  c4_amended.2.2 codecXor (by simp [supportedCodecs]) _ (by decide)

/-! ## C3: the deployed base64 token -/

/-- C3 counterexample.  The claim's token formula is wrong: the
`sw.js` proxied path is NOT `/service/` + base64url(percent-encode(url))
(the `unescape(encodeURIComponent(...))` composite collapses the
percent-encoding before `btoa`), and the bundle's `codecs.base64` token
for the same URL retains `=` padding. -/
theorem c3_counterexample :
    ((swEncodeUrl (str "https://example.com/a?b=1")).map fun t => svcPre ++ t)
      ≠ some (svcPre ++ claimBase64UrlOfPct (str "https://example.com/a?b=1")) ∧
    ∃ t, codecBase64.enc (str "https://example.com/a?b=1") = Except.ok t ∧
      61 ∈ t :=
  ⟨by decide,
   ⟨b64Encode (encodeURIComponentJs (str "https://example.com/a?b=1")),
    by decide, by decide⟩⟩

/-- C3 (amended).  The `sw.js` encoder produces base64url of the
URL's UTF-8 bytes: its token never contains `+`, `/` or `=` (shown in
general), the proxied path for `https://example.com/a?b=1` is
`/service/` + that token, decode re-pads the token to a multiple of 4
before the base64 step, and decoding the token recovers the original
string exactly. -/
theorem c3_amended :
    (∀ url t : List Nat, swEncodeUrl url = some t →
        43 ∉ t ∧ 47 ∉ t ∧ 61 ∉ t) ∧
    ((swEncodeUrl (str "https://example.com/a?b=1")).map fun t => svcPre ++ t)
      = some (svcPre ++
          ((replChar 47 95 (replChar 43 45
              (b64Encode (utf8Bytes (str "https://example.com/a?b=1"))))).filter
            fun c => c ≠ 61)) ∧
    (rePad (str "aHR0cHM6Ly9leGFtcGxlLmNvbS9hP2I9MQ")).length % 4 = 0 ∧
    (swEncodeUrl (str "https://example.com/a?b=1")).bind swDecodeUrl
      = some (str "https://example.com/a?b=1") := by
  refine ⟨?_, by decide, by decide, by decide⟩
  intro url t h
  rcases hbt : btoaJs (utf8Bytes url) with _ | e
  · rw [swEncodeUrl, hbt] at h
    simp at h
  · rw [swEncodeUrl, hbt] at h
    rw [Option.map_some'] at h
    obtain rfl := Option.some.inj h
    refine ⟨?_, ?_, ?_⟩ <;> intro hmem
    · rcases List.mem_filter.mp hmem with ⟨hmem2, _⟩
      rcases List.mem_map.mp hmem2 with ⟨d, hd, hd43⟩
      by_cases h47 : d = 47
      · simp only [if_pos h47] at hd43
        omega
      · simp only [if_neg h47] at hd43
        subst hd43
        rcases List.mem_map.mp hd with ⟨d2, _, hd2⟩
        by_cases h43 : d2 = 43
        · simp only [if_pos h43] at hd2
          omega
        · simp only [if_neg h43] at hd2
          exact h43 hd2
    · rcases List.mem_filter.mp hmem with ⟨hmem2, _⟩
      rcases List.mem_map.mp hmem2 with ⟨d, _, hd47⟩
      by_cases h47 : d = 47
      · simp only [if_pos h47] at hd47
        omega
      · simp only [if_neg h47] at hd47
        exact h47 hd47
    · rcases List.mem_filter.mp hmem with ⟨_, hdec⟩
      simp at hdec

/-- Witness for C3 (amended): the URL-safety of the concrete token. -/
theorem c3_witness :
    43 ∉ str "aHR0cHM6Ly9leGFtcGxlLmNvbS9hP2I9MQ" ∧
    47 ∉ str "aHR0cHM6Ly9leGFtcGxlLmNvbS9hP2I9MQ" ∧
    61 ∉ str "aHR0cHM6Ly9leGFtcGxlLmNvbS9hP2I9MQ" :=
  c3_amended.1 (str "https://example.com/a?b=1")
    (str "aHR0cHM6Ly9leGFtcGxlLmNvbS9hP2I9MQ") (by decide)

end Pr0xies
